import Mathlib

/-!
Verification development for the `magic-functions` interactive graph renderer.

The development shallowly embeds the three source files of the repository:

* `src/useGraph/schematics/edge.ts` — the edge schematic builder `getEdgeSchematic`;
* `src/shapes/draw.ts` — the shape drawers, embedded as traces of rasterisation calls;
* the basic graph composable (`useGraph`) — the node/edge store with `addNode`,
  `removeNode` and the redraw path `draw` / `drawEdge` / `drawNode`.

Helper modules that the sources import but that are not part of the source set
(`shapes/helpers`, `shapes/types`, `useGraph/useGraphHelpers`, `useGraph/types`,
`useGraph/useGraphBase`) are modelled from the specification; each such definition
carries a doc comment starting with `Modelled from the spec:`.

JavaScript numbers are modelled as real numbers, `Math.atan2` as the complex
argument, and code that would crash on unresolvable node labels returns `none`.
-/

namespace Magic

/-- Cartesian point, the `{x, y}` value used throughout the renderer. -/
structure Point where
  x : ℝ
  y : ℝ

noncomputable instance : DecidableEq Point := Classical.decEq _

/-- Model of JavaScript `Math.atan2 y x`: the two-argument arctangent realised as the
complex argument of `x + y·i`; range `(-π, π]`, and `atan2 0 0 = 0`. -/
noncomputable def atan2 (y x : ℝ) : ℝ := Complex.arg ⟨x, y⟩

/-- Euclidean distance between two points (statement vocabulary). -/
noncomputable def ptDist (p q : Point) : ℝ := Real.sqrt ((p.x - q.x) ^ 2 + (p.y - q.y) ^ 2)

/-- Cross product of the two plane vectors `q - p` and `s - r` (statement vocabulary):
zero exactly when the two vectors are parallel. -/
noncomputable def cross2 (p q r s : Point) : ℝ :=
  (q.x - p.x) * (s.y - r.y) - (q.y - p.y) * (s.x - r.x)

/-- Dot product of the two plane vectors `q - p` and `s - r` (statement vocabulary). -/
noncomputable def dot2 (p q r s : Point) : ℝ :=
  (q.x - p.x) * (s.x - r.x) + (q.y - p.y) * (s.y - r.y)

/-! ### Graph data model of the schematic builder -/

/-- Modelled from the spec: the node record used by the schematic builder
(`useGraph/types`, not among the sources): `{id: integer, x, y, label: comparable-key}`. -/
structure GNode where
  id : ℤ
  x : ℝ
  y : ℝ
  label : String

noncomputable instance : DecidableEq GNode := Classical.decEq _

/-- Modelled from the spec: the edge record `{from: label, to: label}`
(`useGraph/types`, not among the sources). Lean reserves `from`, so the fields are
named `efrom` and `eto`. -/
structure GEdge where
  efrom : String
  eto : String
  deriving DecidableEq

/-- Modelled from the spec: a style option field is either a constant or a per-item
function (design note on `GraphOptions` of `useGraphBase`, not among the sources). -/
inductive OptValue (β α : Type) where
  | const (c : α)
  | func (f : β → α)

/-- Modelled from the spec: `getValue` of `useGraphHelpers` (not among the sources) —
a constant is used as-is, a function is invoked with the node or edge as argument. -/
def getValue {β α : Type} : OptValue β α → β → α
  | .const c, _ => c
  | .func f, b => f b

/-- Modelled from the spec: the style options consumed by `getEdgeSchematic`
(`useGraphBase`, not among the sources); only the fields the builder reads. -/
structure GraphOptions where
  nodeSize : OptValue GNode ℝ
  edgeWidth : OptValue GEdge ℝ
  edgeColor : OptValue GEdge String

/-- Modelled from the spec: `getFromToNodes` of `useGraphHelpers` (not among the
sources) resolves the `from` / `to` labels of an edge to node records; a label with
no matching node is a resolution failure, modelled as `none` (the TS code would
crash downstream). -/
def getFromToNodes (edge : GEdge) (nodes : List GNode) : Option (GNode × GNode) :=
  match nodes.find? (fun n => n.label == edge.efrom),
        nodes.find? (fun n => n.label == edge.eto) with
  | some f, some t => some (f, t)
  | _, _ => none

/-! ### Largest angular space (modelled geometry helper) -/

/-- Insertion step of the ascending sort used by the modelled `getLargestAngularSpace`. -/
noncomputable def insertAsc (x : ℝ) : List ℝ → List ℝ
  | [] => [x]
  | y :: ys => if x ≤ y then x :: y :: ys else y :: insertAsc x ys

/-- Ascending insertion sort over the reals. -/
noncomputable def sortAsc : List ℝ → List ℝ
  | [] => []
  | x :: xs => insertAsc x (sortAsc xs)

/-- Gaps between consecutive members of a sorted angle list, as pairs
`(gap size, gap midpoint)`. -/
noncomputable def consecGaps : List ℝ → List (ℝ × ℝ)
  | [] => []
  | [_] => []
  | a :: b :: rest => (b - a, (a + b) / 2) :: consecGaps (b :: rest)
termination_by l => l.length

/-- Fold picking the entry with the largest first component; an earlier entry wins ties. -/
noncomputable def pickLargest (init : ℝ × ℝ) (l : List (ℝ × ℝ)) : ℝ × ℝ :=
  l.foldl (fun best g => if best.1 < g.1 then g else best) init

/-- Modelled from the spec: `getLargestAngularSpace(origin, otherPoints)` of
`shapes/helpers` (not among the sources): compute the angle of the direction toward
each occupied point, sort ascending, form the circular gaps between consecutive
angles (wrapping the largest back around to the smallest), and return the midpoint
of the largest gap; with no occupied points return the default direction `0`. -/
noncomputable def getLargestAngularSpace (origin : Point) (pts : List Point) : ℝ :=
  match sortAsc (pts.map (fun p => atan2 (p.y - origin.y) (p.x - origin.x))) with
  | [] => 0
  | h :: rest =>
      let lst := rest.getLastD h
      (pickLargest (h + 2 * Real.pi - lst, (lst + h + 2 * Real.pi) / 2)
        (consecGaps (h :: rest))).2

/-! ### Shape descriptions -/

/-- Modelled from the spec: the Straight form (`Arrow` of `shapes/types`, not among
the sources). Lean reserves `end`, so the field is named `endPt`. -/
structure Arrow where
  start : Point
  endPt : Point
  color : String
  width : ℝ

/-- Modelled from the spec: the Self-Loop form (`UTurnArrow` of `shapes/types`, not
among the sources). -/
structure UTurnArrow where
  spacing : ℝ
  center : Point
  upDistance : ℝ
  downDistance : ℝ
  angle : ℝ
  lineWidth : ℝ
  color : String

/-- Result of the edge schematic builder: straight arrow or U-turn (self-loop) arrow. -/
inductive EdgeSchematic where
  | line (a : Arrow)
  | uturn (u : UTurnArrow)

/-! ### The edge schematic builder (`edge.ts`) -/

/-- Embeds `edge.ts` line 10: `edges.some(e => e.from === to.label && e.to === from.label)`. -/
def isBidirectionalB (f t : GNode) (edges : List GEdge) : Bool :=
  edges.any (fun e => e.efrom == t.label && e.eto == f.label)

/-- Embeds `edge.ts` line 15: the base direction angle of the edge. -/
noncomputable def edgeAngle (f t : GNode) : ℝ := atan2 (t.y - f.y) (t.x - f.x)

/-- Embeds `edge.ts` lines 22 and 27—30: the `start` point — the source position,
shifted perpendicular to the direction by the 12-unit lane spacing when the edge is
bidirectional. -/
noncomputable def startPoint (f t : GNode) (edges : List GEdge) : Point :=
  if isBidirectionalB f t edges then
    ⟨f.x + Real.cos (edgeAngle f t + Real.pi / 2) * 12,
     f.y + Real.sin (edgeAngle f t + Real.pi / 2) * 12⟩
  else ⟨f.x, f.y⟩

/-- Embeds `edge.ts` lines 13—23 and 31—33: the `end` point — the destination pulled
back along the direction by `nodeSize(to) + 10`, likewise shifted by the lane spacing
when bidirectional. -/
noncomputable def endPoint (f t : GNode) (edges : List GEdge) (options : GraphOptions) : Point :=
  let nodeSizeVal := getValue options.nodeSize t + 10
  let angle := edgeAngle f t
  let epiCenter : Point :=
    ⟨t.x - nodeSizeVal * Real.cos angle, t.y - nodeSizeVal * Real.sin angle⟩
  if isBidirectionalB f t edges then
    ⟨epiCenter.x + Real.cos (angle + Real.pi / 2) * 12,
     epiCenter.y + Real.sin (angle + Real.pi / 2) * 12⟩
  else epiCenter

/-- Failure-propagating map over a list: `some` of the mapped list when every element
maps to `some`, and `none` as soon as one element fails. -/
def optionMapList {α β : Type} (g : α → Option β) : List α → Option (List β)
  | [] => some []
  | a :: l =>
      match g a, optionMapList g l with
      | some b, some bs => some (b :: bs)
      | _, _ => none

/-- Embeds `edge.ts` lines 35—41: for every sibling edge passing the incidence filter
(excluding self-loops), resolve the position of its other endpoint; a resolution
failure is modelled as `none` (the TS code would crash there). -/
def occupiedPoints (f t : GNode) (nodes : List GNode) (edges : List GEdge) :
    Option (List Point) :=
  optionMapList
    (fun e => (getFromToNodes e nodes).map
      (fun p => if f.id = p.1.id then (⟨p.2.x, p.2.y⟩ : Point) else ⟨p.1.x, p.1.y⟩))
    (edges.filter (fun e => (e.efrom == f.label || e.eto == t.label) && e.efrom != e.eto))

/-- Embeds `edge.ts` lines 43—51: the U-turn description built for a self-loop edge. -/
noncomputable def selfDirectedEdgeLine (edge : GEdge) (f t : GNode) (edges : List GEdge)
    (options : GraphOptions) (occupied : List Point) : UTurnArrow :=
  ⟨12, ⟨f.x, f.y⟩, 80, 25, getLargestAngularSpace (startPoint f t edges) occupied,
   getValue options.edgeWidth edge, getValue options.edgeColor edge⟩

/-- Embeds `edge.ts` lines 53—58: the straight-arrow description. -/
noncomputable def edgeLine (edge : GEdge) (f t : GNode) (edges : List GEdge)
    (options : GraphOptions) : Arrow :=
  ⟨startPoint f t edges, endPoint f t edges options,
   getValue options.edgeColor edge, getValue options.edgeWidth edge⟩

/-- Embeds `getEdgeSchematic` (`edge.ts` lines 7—61): resolve the endpoints, then
return the U-turn form when `from` and `to` resolve to the same node record and the
straight form otherwise; any resolution failure (current edge or a sibling inside the
occupied-direction computation, both of which crash the TS code) yields `none`. -/
noncomputable def getEdgeSchematic (edge : GEdge) (nodes : List GNode) (edges : List GEdge)
    (options : GraphOptions) : Option EdgeSchematic :=
  match getFromToNodes edge nodes with
  | none => none
  | some (f, t) =>
      match occupiedPoints f t nodes edges with
      | none => none
      | some occupied =>
          some (if f = t then .uturn (selfDirectedEdgeLine edge f t edges options occupied)
                else .line (edgeLine edge f t edges options))

/-- Embeds the bidirectionality flag of `getEdgeSchematic` (`edge.ts` line 10) together
with the endpoint resolution it reads from. -/
def isBidirectionalFlag (edge : GEdge) (nodes : List GNode) (edges : List GEdge) :
    Option Bool :=
  (getFromToNodes edge nodes).map (fun p => isBidirectionalB p.1 p.2 edges)

/-! ### Shape drawers (`draw.ts`), embedded as traces of rasterisation calls -/

/-- Trace element recording one rasterisation call performed by the shape drawers. -/
inductive ShapeCmd where
  | lineCmd (start endPt : Point) (width : ℝ) (color : String)
  | triangleCmd (p1 p2 p3 : Point) (color : String)

/-- Modelled from the spec: the `Line` description of `shapes/types` (not among the
sources); `color` is optional, the drawers default it to `"black"`. -/
structure LineDescr where
  start : Point
  endPt : Point
  color : Option String
  width : ℝ

/-- Triangle description of `shapes/types` (not among the sources), modelled from the
drawers' use. -/
structure TriangleDescr where
  point1 : Point
  point2 : Point
  point3 : Point
  color : Option String

/-- Embeds `drawLineWithCtx` (`draw.ts` lines 74—83). -/
def drawLineWithCtx (o : LineDescr) : List ShapeCmd :=
  [.lineCmd o.start o.endPt o.width (o.color.getD "black")]

/-- Embeds `drawTriangleWithCtx` (`draw.ts` lines 85—94). -/
def drawTriangleWithCtx (o : TriangleDescr) : List ShapeCmd :=
  [.triangleCmd o.point1 o.point2 o.point3 (o.color.getD "black")]

/-- Embeds `drawArrowWithCtx` (`draw.ts` lines 96—136): the shaft line from `start` to
the epicenter, followed by the arrowhead triangle with apex at the original `end`. -/
noncomputable def drawArrowWithCtx (o : LineDescr) : List ShapeCmd :=
  let color := o.color.getD "black"
  let arrowHeadHeight : ℝ := 25
  let angle := atan2 (o.endPt.y - o.start.y) (o.endPt.x - o.start.x)
  let epiCenter : Point :=
    ⟨o.endPt.x - arrowHeadHeight * Real.cos angle,
     o.endPt.y - arrowHeadHeight * Real.sin angle⟩
  let pLineLength := arrowHeadHeight / 1.75
  let trianglePt1 := o.endPt
  let trianglePt2 : Point :=
    ⟨epiCenter.x + pLineLength * Real.cos (angle + Real.pi / 2),
     epiCenter.y + pLineLength * Real.sin (angle + Real.pi / 2)⟩
  let trianglePt3 : Point :=
    ⟨epiCenter.x - pLineLength * Real.cos (angle + Real.pi / 2),
     epiCenter.y - pLineLength * Real.sin (angle + Real.pi / 2)⟩
  drawLineWithCtx ⟨o.start, epiCenter, some color, o.width⟩ ++
    drawTriangleWithCtx ⟨trianglePt1, trianglePt2, trianglePt3, some color⟩

/-! ### The basic graph composable (store, mutations and redraw path) -/

/-- Node record of the basic graph composable (source lines 15—19). -/
structure BasicNode where
  id : ℤ
  x : ℝ
  y : ℝ

/-- Edge record of the basic graph composable (source lines 21—24); edges reference
nodes by `id`. Lean reserves `from`, so the fields are named `eto` and `efrom` in the
source's field order. -/
structure BasicEdge where
  eto : ℤ
  efrom : ℤ
  deriving DecidableEq

/-- Optional-field argument of `addNode` (`Partial<Node>` in the source). -/
structure PartialNode where
  id : Option ℤ
  x : Option ℝ
  y : Option ℝ

/-- JavaScript `v || fallback` for an optional integer field: the fallback is used when
the field is absent or falsy (zero). -/
def orElseInt (v : Option ℤ) (fallback : ℤ) : ℤ :=
  match v with
  | none => fallback
  | some i => if i = 0 then fallback else i

/-- JavaScript `v || fallback` for an optional numeric field: the fallback is used when
the field is absent or falsy (zero). -/
noncomputable def orElseReal (v : Option ℝ) (fallback : ℝ) : ℝ :=
  match v with
  | none => fallback
  | some r => if r = 0 then fallback else r

/-- Graph store state: the `nodes` and `edges` refs of `useGraph` (source lines 40—41). -/
structure GraphState where
  nodes : List BasicNode
  edges : List BasicEdge

/-- Embeds `addNode` (source lines 97—103): push a node whose missing (or falsy) `id`
defaults to `nodes.length + 1` and whose missing (or falsy) coordinates default to 100. -/
noncomputable def addNode (s : GraphState) (node : PartialNode) : GraphState :=
  { s with
    nodes := s.nodes ++ [⟨orElseInt node.id ((s.nodes.length : ℤ) + 1),
                          orElseReal node.x 100, orElseReal node.y 100⟩] }

/-- Embeds `removeNode` (source lines 123—130): splice out the first node whose id
matches (if any is found) and drop every edge whose `from` or `to` equals the id. -/
def removeNode (s : GraphState) (nid : ℤ) : GraphState :=
  { nodes :=
      match s.nodes.findIdx? (fun n => n.id == nid) with
      | some i => s.nodes.eraseIdx i
      | none => s.nodes
    edges := s.edges.filter (fun e => e.efrom != nid && e.eto != nid) }

/-- Trace element recording one canvas call of the basic composable's redraw path. -/
inductive CanvasCmd where
  | clearRect (x y w h : ℝ)
  | strokeLine (p q : Point) (color : String) (width : ℝ)
  | fillCircle (c : Point) (radius : ℝ) (color : String)
  | strokeCircle (c : Point) (radius : ℝ) (color : String) (width : ℝ)
  | fillText (text : String) (pos : Point) (size : ℝ) (color : String)

/-- Style options of the basic composable (source lines 3—13) with the destructuring
defaults of lines 28—38 already resolved. -/
structure BasicOptions where
  nodeSize : ℝ
  nodeBorderSize : ℝ
  nodeColor : String
  nodeBorderColor : String
  nodeText : BasicNode → String
  nodeTextSize : ℝ
  nodeTextColor : String
  edgeColor : String
  edgeWidth : ℝ

/-- Embeds `drawNode` (source lines 43—62): the node disc, its border, and its label. -/
def drawNode (o : BasicOptions) (node : BasicNode) : List CanvasCmd :=
  [.fillCircle ⟨node.x, node.y⟩ o.nodeSize o.nodeColor,
   .strokeCircle ⟨node.x, node.y⟩ o.nodeSize o.nodeBorderColor o.nodeBorderSize,
   .fillText (o.nodeText node) ⟨node.x, node.y⟩ o.nodeTextSize o.nodeTextColor]

/-- Embeds `drawEdge` (source lines 64—77): resolve both endpoint ids in the node
collection and return without drawing anything when either is missing. -/
def drawEdge (o : BasicOptions) (nodes : List BasicNode) (edge : BasicEdge) :
    List CanvasCmd :=
  match nodes.find? (fun n => n.id == edge.efrom),
        nodes.find? (fun n => n.id == edge.eto) with
  | some f, some t => [.strokeLine ⟨f.x, f.y⟩ ⟨t.x, t.y⟩ o.edgeColor o.edgeWidth]
  | _, _ => []

/-- Embeds `draw` (source lines 79—83): clear the surface, draw every edge, then draw
every node on top. -/
def draw (o : BasicOptions) (w h : ℝ) (s : GraphState) : List CanvasCmd :=
  .clearRect 0 0 w h :: (s.edges.flatMap (drawEdge o s.nodes) ++ s.nodes.flatMap (drawNode o))

/-! ### Statement vocabulary for the lane geometry -/

/-- The epicenter of a straight edge before any lane offset (`edge.ts` lines 17—20):
the destination pulled back along the direction by `nodeSize(to) + 10`. -/
noncomputable def pullbackPoint (f t : GNode) (options : GraphOptions) : Point :=
  ⟨t.x - (getValue options.nodeSize t + 10) * Real.cos (edgeAngle f t),
   t.y - (getValue options.nodeSize t + 10) * Real.sin (edgeAngle f t)⟩

/-- The perpendicular lane-offset vector of a bidirectional edge pair (statement
vocabulary): the edge direction rotated by +π/2, scaled to 12 units. -/
noncomputable def laneOffset (p q : Point) : Point :=
  ⟨-(12 * (q.y - p.y)) / Real.sqrt ((q.x - p.x) ^ 2 + (q.y - p.y) ^ 2),
   12 * (q.x - p.x) / Real.sqrt ((q.x - p.x) ^ 2 + (q.y - p.y) ^ 2)⟩

/-- Point of a rendered lane at parameter `τ` (statement vocabulary): `τ = 0` is the
arrow's start, `τ = 1` its end. -/
noncomputable def segPt (a : Arrow) (τ : ℝ) : Point :=
  ⟨a.start.x + τ * (a.endPt.x - a.start.x), a.start.y + τ * (a.endPt.y - a.start.y)⟩

/-! ### Concrete scenarios used by counterexamples and witnesses -/

/-- Node `A` at the origin. -/
def nodeA : GNode := ⟨1, 0, 0, "A"⟩

/-- Node `B` at `(100, 0)`. -/
def nodeB : GNode := ⟨2, 100, 0, "B"⟩

/-- Node `B` placed exactly on top of node `A` (coincident positions). -/
def nodeB0 : GNode := ⟨2, 0, 0, "B"⟩

/-- Edge A→B. -/
def eAB : GEdge := ⟨"A", "B"⟩

/-- Edge B→A. -/
def eBA : GEdge := ⟨"B", "A"⟩

/-- Self-loop edge A→A. -/
def eAA : GEdge := ⟨"A", "A"⟩

/-- Constant style options: node size 35, edge width 10, edge color black. -/
def opts35 : GraphOptions := ⟨.const 35, .const 10, .const "black"⟩

/-! ### Helper lemmas about `atan2` -/

theorem complexMk_ne_zero {x y : ℝ} (h : ¬(x = 0 ∧ y = 0)) : (⟨x, y⟩ : ℂ) ≠ 0 := by
  intro hz
  exact h ⟨congrArg Complex.re hz, congrArg Complex.im hz⟩

theorem abs_complexMk (x y : ℝ) : Complex.abs ⟨x, y⟩ = Real.sqrt (x ^ 2 + y ^ 2) := by
  rw [Complex.abs_apply, Complex.normSq_mk]
  ring_nf

theorem sq_add_sq_pos {x y : ℝ} (h : ¬(x = 0 ∧ y = 0)) : 0 < x ^ 2 + y ^ 2 := by
  rcases not_and_or.mp h with hx | hy
  · nlinarith [sq_nonneg y, sq_pos_of_ne_zero hx]
  · nlinarith [sq_nonneg x, sq_pos_of_ne_zero hy]

theorem sqrt_sq_add_sq_pos {x y : ℝ} (h : ¬(x = 0 ∧ y = 0)) : 0 < Real.sqrt (x ^ 2 + y ^ 2) :=
  Real.sqrt_pos.mpr (sq_add_sq_pos h)

theorem sq_sqrt_sq_add_sq (x y : ℝ) : Real.sqrt (x ^ 2 + y ^ 2) ^ 2 = x ^ 2 + y ^ 2 :=
  Real.sq_sqrt (by positivity)

theorem cos_atan2 {y x : ℝ} (h : ¬(x = 0 ∧ y = 0)) :
    Real.cos (atan2 y x) = x / Real.sqrt (x ^ 2 + y ^ 2) := by
  rw [atan2, Complex.cos_arg (complexMk_ne_zero h), abs_complexMk]

theorem sin_atan2 (y x : ℝ) :
    Real.sin (atan2 y x) = y / Real.sqrt (x ^ 2 + y ^ 2) := by
  rw [atan2, Complex.sin_arg, abs_complexMk]

theorem atan2_zero_of_nonneg {x : ℝ} (hx : 0 ≤ x) : atan2 0 x = 0 := by
  have hmk : (⟨x, 0⟩ : ℂ) = (x : ℂ) := rfl
  rw [atan2, hmk, Complex.arg_ofReal_of_nonneg hx]

theorem cos_add_half_pi (θ : ℝ) : Real.cos (θ + Real.pi / 2) = -Real.sin θ := by
  rw [Real.cos_add, Real.cos_pi_div_two, Real.sin_pi_div_two]
  ring

theorem sin_add_half_pi (θ : ℝ) : Real.sin (θ + Real.pi / 2) = Real.cos θ := by
  rw [Real.sin_add, Real.cos_pi_div_two, Real.sin_pi_div_two]
  ring

theorem atan2_zero_zero : atan2 0 0 = 0 := by
  have hmk : (⟨0, 0⟩ : ℂ) = 0 := by
    apply Complex.ext <;> simp
  rw [atan2, hmk, Complex.arg_zero]

theorem atan2_zero_of_neg {x : ℝ} (hx : x < 0) : atan2 0 x = Real.pi := by
  have hmk : (⟨x, 0⟩ : ℂ) = (x : ℂ) := rfl
  rw [atan2, hmk, Complex.arg_ofReal_of_neg hx]

/-! ### Resolution lemmas for `getFromToNodes` -/

theorem getFromToNodes_eq_some {edge : GEdge} {nodes : List GNode} {f t : GNode}
    (h : getFromToNodes edge nodes = some (f, t)) :
    nodes.find? (fun n => n.label == edge.efrom) = some f ∧
    nodes.find? (fun n => n.label == edge.eto) = some t := by
  unfold getFromToNodes at h
  cases h1 : nodes.find? (fun n => n.label == edge.efrom) with
  | none =>
      rw [h1] at h
      cases h2 : nodes.find? (fun n => n.label == edge.eto) <;> rw [h2] at h <;>
        exact absurd h (by simp)
  | some f' =>
      rw [h1] at h
      cases h2 : nodes.find? (fun n => n.label == edge.eto) with
      | none => rw [h2] at h; exact absurd h (by simp)
      | some t' =>
          rw [h2] at h
          simp only [Option.some.injEq, Prod.mk.injEq] at h
          exact ⟨by rw [h.1], by rw [h.2]⟩

theorem find?_label_eq {nodes : List GNode} {lab : String} {n : GNode}
    (h : nodes.find? (fun m => m.label == lab) = some n) : n.label = lab := by
  have := List.find?_some h
  simpa using this

theorem getFromToNodes_labels {edge : GEdge} {nodes : List GNode} {f t : GNode}
    (h : getFromToNodes edge nodes = some (f, t)) :
    f.label = edge.efrom ∧ t.label = edge.eto := by
  obtain ⟨h1, h2⟩ := getFromToNodes_eq_some h
  exact ⟨find?_label_eq h1, find?_label_eq h2⟩

theorem selfloop_iff_label_eq {edge : GEdge} {nodes : List GNode} {f t : GNode}
    (h : getFromToNodes edge nodes = some (f, t)) :
    f = t ↔ edge.efrom = edge.eto := by
  obtain ⟨hf, ht⟩ := getFromToNodes_labels h
  constructor
  · intro hft
    rw [← hf, ← ht, hft]
  · intro he
    obtain ⟨h1, h2⟩ := getFromToNodes_eq_some h
    rw [← he] at h2
    rw [h1] at h2
    exact Option.some.inj h2

/-! ### Extraction lemmas for `getEdgeSchematic` -/

theorem getEdgeSchematic_line_eq {edge : GEdge} {nodes : List GNode} {edges : List GEdge}
    {options : GraphOptions} {f t : GNode} {a : Arrow}
    (hres : getFromToNodes edge nodes = some (f, t))
    (hs : getEdgeSchematic edge nodes edges options = some (.line a)) :
    f ≠ t ∧ a = edgeLine edge f t edges options := by
  unfold getEdgeSchematic at hs
  rw [hres] at hs
  dsimp only at hs
  cases hocc : occupiedPoints f t nodes edges with
  | none => rw [hocc] at hs; exact absurd hs (by simp)
  | some occ =>
      rw [hocc] at hs
      dsimp only at hs
      by_cases hft : f = t
      · rw [if_pos hft] at hs
        exact absurd (Option.some.inj hs) (by simp)
      · rw [if_neg hft] at hs
        have := Option.some.inj hs
        refine ⟨hft, ?_⟩
        cases this
        rfl

theorem getEdgeSchematic_uturn_eq {edge : GEdge} {nodes : List GNode} {edges : List GEdge}
    {options : GraphOptions} {f t : GNode} {u : UTurnArrow}
    (hres : getFromToNodes edge nodes = some (f, t))
    (hs : getEdgeSchematic edge nodes edges options = some (.uturn u)) :
    f = t ∧ ∃ occ, occupiedPoints f t nodes edges = some occ ∧
      u = selfDirectedEdgeLine edge f t edges options occ := by
  unfold getEdgeSchematic at hs
  rw [hres] at hs
  dsimp only at hs
  cases hocc : occupiedPoints f t nodes edges with
  | none => rw [hocc] at hs; exact absurd hs (by simp)
  | some occ =>
      rw [hocc] at hs
      dsimp only at hs
      by_cases hft : f = t
      · rw [if_pos hft] at hs
        have := Option.some.inj hs
        refine ⟨hft, occ, rfl, ?_⟩
        cases this
        rfl
      · rw [if_neg hft] at hs
        exact absurd (Option.some.inj hs) (by simp)

/-! ### C8 — reversing the direction flips the angle by π (mod 2π) -/

/-- C8: for all distinct points `a` and `b`, the direction angle toward `b` seen from
`a` (the two-argument arctangent of `(b.y - a.y, b.x - a.x)`, as computed on
`edge.ts` line 15) and the direction angle toward `a` seen from `b` differ by exactly
π modulo 2π. -/
theorem angle_reverse_differs_by_pi (a b : Point) (h : a ≠ b) :
    ∃ k : ℤ, atan2 (b.y - a.y) (b.x - a.x) - atan2 (a.y - b.y) (a.x - b.x) =
      Real.pi + 2 * Real.pi * k := by
  have hne : ¬(b.x - a.x = 0 ∧ b.y - a.y = 0) := by
    rintro ⟨hx, hy⟩
    apply h
    cases a with
    | mk ax ay =>
      cases b with
      | mk bx by' =>
        simp only [Point.mk.injEq]
        constructor <;> [linarith [hx]; linarith [hy]]
  have hz : (⟨b.x - a.x, b.y - a.y⟩ : ℂ) ≠ 0 := complexMk_ne_zero hne
  have hneg : (⟨a.x - b.x, a.y - b.y⟩ : ℂ) = -(⟨b.x - a.x, b.y - a.y⟩ : ℂ) := by
    apply Complex.ext <;> simp [neg_sub]
  have hangle := Complex.arg_neg_coe_angle hz
  rw [← Real.Angle.coe_add] at hangle
  obtain ⟨k, hk⟩ := Real.Angle.angle_eq_iff_two_pi_dvd_sub.mp hangle
  refine ⟨-k - 1, ?_⟩
  have h1 : atan2 (a.y - b.y) (a.x - b.x) = Complex.arg (-(⟨b.x - a.x, b.y - a.y⟩ : ℂ)) := by
    rw [atan2, hneg]
  have h2 : atan2 (b.y - a.y) (b.x - a.x) = Complex.arg (⟨b.x - a.x, b.y - a.y⟩ : ℂ) := rfl
  rw [h1, h2]
  push_cast
  linarith [hk]

/-- Witness for C8 at the concrete points `(0,0)` and `(1,0)`. -/
theorem angle_reverse_differs_by_pi_witness :
    ((⟨0, 0⟩ : Point) ≠ ⟨1, 0⟩) ∧
    (∃ k : ℤ, atan2 ((⟨1, 0⟩ : Point).y - (⟨0, 0⟩ : Point).y)
        ((⟨1, 0⟩ : Point).x - (⟨0, 0⟩ : Point).x) -
      atan2 ((⟨0, 0⟩ : Point).y - (⟨1, 0⟩ : Point).y)
        ((⟨0, 0⟩ : Point).x - (⟨1, 0⟩ : Point).x) =
      Real.pi + 2 * Real.pi * k) := by
  have hne : (⟨0, 0⟩ : Point) ≠ ⟨1, 0⟩ := by
    intro hcontra
    exact zero_ne_one (α := ℝ) (congrArg Point.x hcontra)
  exact ⟨hne, angle_reverse_differs_by_pi _ _ hne⟩

/-! ### C9 — the straight-arrow drawer -/

theorem Point.eq_of_coords {p q : Point} (hx : p.x = q.x) (hy : p.y = q.y) : p = q := by
  cases p
  cases q
  simp_all

/-- C9: for every line description with distinct `start` and `end`, the straight-arrow
drawer emits exactly a shaft line from `start` to an epicenter and a head triangle:
the epicenter sits at distance 25 from `end`, on the line through `start` and `end`,
pulled back against the start-to-end direction; the triangle's apex is the original
`end` and its two base points are the epicenter offset perpendicular to the direction
by plus and minus `25 / 1.75` units. -/
theorem sqrt_pullback_dist (a b s k : ℝ) (hk : 0 ≤ k) (hcs : Real.sin s ^ 2 + Real.cos s ^ 2 = 1) :
    Real.sqrt ((a - k * Real.cos s - a) ^ 2 + (b - k * Real.sin s - b) ^ 2) = k := by
  have h1 : (a - k * Real.cos s - a) ^ 2 + (b - k * Real.sin s - b) ^ 2 = k ^ 2 := by
    linear_combination k ^ 2 * hcs
  rw [h1, Real.sqrt_sq hk]

theorem sqrt_offset_dist (a b s k : ℝ) (hk : 0 ≤ k) (hcs : Real.sin s ^ 2 + Real.cos s ^ 2 = 1) :
    Real.sqrt ((a + k * Real.cos s - a) ^ 2 + (b + k * Real.sin s - b) ^ 2) = k := by
  have h1 : (a + k * Real.cos s - a) ^ 2 + (b + k * Real.sin s - b) ^ 2 = k ^ 2 := by
    linear_combination k ^ 2 * hcs
  rw [h1, Real.sqrt_sq hk]

theorem dot_pullback_pos (sx sy ex ey k r : ℝ) (hk : 0 < k) (hrpos : 0 < r)
    (hne : ¬(ex - sx = 0 ∧ ey - sy = 0)) :
    0 < (ex - (ex - k * ((ex - sx) / r))) * (ex - sx) +
        (ey - (ey - k * ((ey - sy) / r))) * (ey - sy) := by
  have hr0 : r ≠ 0 := ne_of_gt hrpos
  have h1 : (ex - (ex - k * ((ex - sx) / r))) * (ex - sx) +
      (ey - (ey - k * ((ey - sy) / r))) * (ey - sy) =
      k * ((ex - sx) ^ 2 + (ey - sy) ^ 2) / r := by
    field_simp
    ring
  rw [h1]
  exact div_pos (mul_pos hk (sq_add_sq_pos hne)) hrpos

theorem drawArrow_epicenter_spec (o : LineDescr) (h : o.start ≠ o.endPt) :
    ∃ epi p2 p3 : Point,
      drawArrowWithCtx o =
        [ShapeCmd.lineCmd o.start epi o.width (o.color.getD "black"),
         ShapeCmd.triangleCmd o.endPt p2 p3 (o.color.getD "black")] ∧
      ptDist epi o.endPt = 25 ∧
      cross2 o.start o.endPt o.start epi = 0 ∧
      0 < dot2 epi o.endPt o.start o.endPt ∧
      dot2 epi p2 o.start o.endPt = 0 ∧
      ptDist p2 epi = 25 / 1.75 ∧
      p2.x - epi.x = -(p3.x - epi.x) ∧ p2.y - epi.y = -(p3.y - epi.y) := by
  have hne : ¬(o.endPt.x - o.start.x = 0 ∧ o.endPt.y - o.start.y = 0) := by
    rintro ⟨h1, h2⟩
    exact h (Point.eq_of_coords (by linarith) (by linarith))
  have hr0 : Real.sqrt ((o.endPt.x - o.start.x) ^ 2 + (o.endPt.y - o.start.y) ^ 2) ≠ 0 :=
    ne_of_gt (sqrt_sq_add_sq_pos hne)
  set θ := atan2 (o.endPt.y - o.start.y) (o.endPt.x - o.start.x) with hθdef
  have hcos := cos_atan2 hne
  have hsin := sin_atan2 (o.endPt.y - o.start.y) (o.endPt.x - o.start.x)
  rw [← hθdef] at hcos hsin
  refine ⟨⟨o.endPt.x - 25 * Real.cos θ, o.endPt.y - 25 * Real.sin θ⟩,
          ⟨o.endPt.x - 25 * Real.cos θ + 25 / 1.75 * Real.cos (θ + Real.pi / 2),
           o.endPt.y - 25 * Real.sin θ + 25 / 1.75 * Real.sin (θ + Real.pi / 2)⟩,
          ⟨o.endPt.x - 25 * Real.cos θ - 25 / 1.75 * Real.cos (θ + Real.pi / 2),
           o.endPt.y - 25 * Real.sin θ - 25 / 1.75 * Real.sin (θ + Real.pi / 2)⟩,
          ?_, ?_, ?_, ?_, ?_, ?_, ?_, ?_⟩
  · rfl
  · simp only [ptDist]
    exact sqrt_pullback_dist o.endPt.x o.endPt.y θ 25 (by norm_num)
      (Real.sin_sq_add_cos_sq θ)
  · simp only [cross2]
    rw [hcos, hsin]
    field_simp
    ring
  · simp only [dot2]
    rw [hcos, hsin]
    exact dot_pullback_pos o.start.x o.start.y o.endPt.x o.endPt.y 25 _
      (by norm_num) (sqrt_sq_add_sq_pos hne) hne
  · simp only [dot2]
    rw [cos_add_half_pi, sin_add_half_pi, hcos, hsin]
    field_simp
    ring
  · simp only [ptDist]
    exact sqrt_offset_dist (o.endPt.x - 25 * Real.cos θ) (o.endPt.y - 25 * Real.sin θ)
      (θ + Real.pi / 2) (25 / 1.75) (by norm_num) (Real.sin_sq_add_cos_sq (θ + Real.pi / 2))
  · show o.endPt.x - 25 * Real.cos θ + 25 / 1.75 * Real.cos (θ + Real.pi / 2) -
        (o.endPt.x - 25 * Real.cos θ) =
      -(o.endPt.x - 25 * Real.cos θ - 25 / 1.75 * Real.cos (θ + Real.pi / 2) -
        (o.endPt.x - 25 * Real.cos θ))
    ring
  · show o.endPt.y - 25 * Real.sin θ + 25 / 1.75 * Real.sin (θ + Real.pi / 2) -
        (o.endPt.y - 25 * Real.sin θ) =
      -(o.endPt.y - 25 * Real.sin θ - 25 / 1.75 * Real.sin (θ + Real.pi / 2) -
        (o.endPt.y - 25 * Real.sin θ))
    ring

/-- Witness for C9 at the concrete line from `(0,0)` to `(100,0)` of width 10. -/
theorem drawArrow_epicenter_spec_witness :
    ((⟨0, 0⟩ : Point) ≠ ⟨100, 0⟩) ∧
    (∃ epi p2 p3 : Point,
      drawArrowWithCtx ⟨⟨0, 0⟩, ⟨100, 0⟩, none, 10⟩ =
        [ShapeCmd.lineCmd ⟨0, 0⟩ epi 10 "black",
         ShapeCmd.triangleCmd ⟨100, 0⟩ p2 p3 "black"] ∧
      ptDist epi ⟨100, 0⟩ = 25 ∧
      cross2 ⟨0, 0⟩ ⟨100, 0⟩ ⟨0, 0⟩ epi = 0 ∧
      0 < dot2 epi ⟨100, 0⟩ ⟨0, 0⟩ ⟨100, 0⟩ ∧
      dot2 epi p2 ⟨0, 0⟩ ⟨100, 0⟩ = 0 ∧
      ptDist p2 epi = 25 / 1.75 ∧
      p2.x - epi.x = -(p3.x - epi.x) ∧ p2.y - epi.y = -(p3.y - epi.y)) := by
  have hne : (⟨0, 0⟩ : Point) ≠ ⟨100, 0⟩ := by
    intro hcontra
    have hx := congrArg Point.x hcontra
    simp only at hx
    norm_num at hx
  exact ⟨hne, drawArrow_epicenter_spec ⟨⟨0, 0⟩, ⟨100, 0⟩, none, 10⟩ hne⟩

/-! ### C3 — the bidirectionality flag -/

/-- C3 (amended): for an edge whose `from` and `to` labels differ, the bidirectional
flag is set if and only if the collection contains an edge — necessarily distinct
from the current one — whose `(from, to)` pair is the exact reverse of the current
edge's pair; no third edge is required. (For a self-loop edge the flag is instead set
by the edge matching itself, see the counterexample.) -/
theorem bidirectional_iff_distinct_reverse (edge : GEdge) (nodes : List GNode)
    (edges : List GEdge) (f t : GNode)
    (hres : getFromToNodes edge nodes = some (f, t))
    (hne : edge.efrom ≠ edge.eto) :
    isBidirectionalFlag edge nodes edges = some true ↔
      ∃ e ∈ edges, e.efrom = edge.eto ∧ e.eto = edge.efrom ∧ e ≠ edge := by
  obtain ⟨hf, ht⟩ := getFromToNodes_labels hres
  rw [isBidirectionalFlag, hres]
  simp only [Option.map_some', Option.some.injEq, isBidirectionalB, List.any_eq_true,
    Bool.and_eq_true, beq_iff_eq]
  constructor
  · rintro ⟨e, he, h1, h2⟩
    refine ⟨e, he, by rw [h1, ht], by rw [h2, hf], ?_⟩
    intro heq
    subst heq
    exact hne (by rw [h1, ht])
  · rintro ⟨e, he, h1, h2, -⟩
    exact ⟨e, he, by rw [h1, ht], by rw [h2, hf]⟩

/-- C3 counterexample: a lone self-loop edge A→A is flagged bidirectional by matching
against itself, although the collection contains no distinct edge with the reversed
pair — so the claimed equivalence fails for self-loop edges. -/
theorem bidirectional_selfmatch_counterexample :
    isBidirectionalFlag eAA [nodeA] [eAA] = some true ∧
    ¬ ∃ e ∈ ([eAA] : List GEdge), e.efrom = eAA.eto ∧ e.eto = eAA.efrom ∧ e ≠ eAA := by
  constructor
  · rfl
  · rintro ⟨e, he, -, -, hne⟩
    simp only [List.mem_singleton] at he
    exact hne he

/-- Witness for C3 on the mirror pair A→B / B→A. -/
theorem bidirectional_iff_distinct_reverse_witness :
    getFromToNodes eAB [nodeA, nodeB] = some (nodeA, nodeB) ∧
    eAB.efrom ≠ eAB.eto ∧
    (isBidirectionalFlag eAB [nodeA, nodeB] [eAB, eBA] = some true ↔
      ∃ e ∈ ([eAB, eBA] : List GEdge), e.efrom = eAB.eto ∧ e.eto = eAB.efrom ∧ e ≠ eAB) := by
  have hres : getFromToNodes eAB [nodeA, nodeB] = some (nodeA, nodeB) := rfl
  have hne : eAB.efrom ≠ eAB.eto := by decide
  exact ⟨hres, hne,
    bidirectional_iff_distinct_reverse eAB [nodeA, nodeB] [eAB, eBA] nodeA nodeB hres hne⟩

/-! ### Concrete evaluations of the schematic builder -/

theorem res_AB : getFromToNodes eAB [nodeA, nodeB] = some (nodeA, nodeB) := rfl

theorem res_BA : getFromToNodes eBA [nodeA, nodeB] = some (nodeB, nodeA) := rfl

theorem res_AA : getFromToNodes eAA [nodeA, nodeB] = some (nodeA, nodeA) := rfl

theorem nodeA_ne_nodeB : nodeA ≠ nodeB := by
  intro h
  have := congrArg GNode.id h
  simp [nodeA, nodeB] at this

theorem startPoint_of_not_bidir {f t : GNode} {edges : List GEdge}
    (h : isBidirectionalB f t edges = false) :
    startPoint f t edges = ⟨f.x, f.y⟩ := by
  rw [startPoint, h]
  simp

theorem startPoint_of_bidir {f t : GNode} {edges : List GEdge}
    (h : isBidirectionalB f t edges = true) :
    startPoint f t edges =
      ⟨f.x + Real.cos (edgeAngle f t + Real.pi / 2) * 12,
       f.y + Real.sin (edgeAngle f t + Real.pi / 2) * 12⟩ := by
  rw [startPoint, h]
  simp

theorem endPoint_of_not_bidir {f t : GNode} {edges : List GEdge} {options : GraphOptions}
    (h : isBidirectionalB f t edges = false) :
    endPoint f t edges options = pullbackPoint f t options := by
  rw [endPoint, h]
  simp [pullbackPoint]

theorem endPoint_of_bidir {f t : GNode} {edges : List GEdge} {options : GraphOptions}
    (h : isBidirectionalB f t edges = true) :
    endPoint f t edges options =
      ⟨(pullbackPoint f t options).x + Real.cos (edgeAngle f t + Real.pi / 2) * 12,
       (pullbackPoint f t options).y + Real.sin (edgeAngle f t + Real.pi / 2) * 12⟩ := by
  rw [endPoint, h]
  simp [pullbackPoint]

theorem angle_A_to_B : edgeAngle nodeA nodeB = 0 := by
  have h : edgeAngle nodeA nodeB = atan2 0 100 := by
    simp [edgeAngle, nodeA, nodeB]
  rw [h]
  exact atan2_zero_of_nonneg (by norm_num)

theorem pullback_A_to_B : pullbackPoint nodeA nodeB opts35 = ⟨55, 0⟩ := by
  rw [pullbackPoint, angle_A_to_B]
  simp only [Real.cos_zero, Real.sin_zero, Point.mk.injEq]
  constructor <;> norm_num [getValue, opts35, nodeA, nodeB]

theorem occ_AB_single : occupiedPoints nodeA nodeB [nodeA, nodeB] [eAB] = some [⟨100, 0⟩] :=
  rfl

theorem schem_AB_single :
    getEdgeSchematic eAB [nodeA, nodeB] [eAB] opts35 =
      some (.line ⟨⟨0, 0⟩, ⟨55, 0⟩, "black", 10⟩) := by
  unfold getEdgeSchematic
  rw [res_AB]
  dsimp only
  rw [occ_AB_single]
  dsimp only
  rw [if_neg nodeA_ne_nodeB]
  have hbid : isBidirectionalB nodeA nodeB [eAB] = false := rfl
  have h1 : edgeLine eAB nodeA nodeB [eAB] opts35 = ⟨⟨0, 0⟩, ⟨55, 0⟩, "black", 10⟩ := by
    rw [edgeLine, startPoint_of_not_bidir hbid, endPoint_of_not_bidir hbid, pullback_A_to_B]
    simp [getValue, opts35, nodeA]
  rw [h1]

/-! ### C7 — the concrete end-to-end straight edge -/

/-- C7: with nodes A at `(0,0)` and B at `(100,0)`, a single edge A→B and constant
node size 35, the builder returns the Straight form with `start = (0,0)` and
`end = (55, 0)` — the destination pulled back by `35 + 10 = 45` along the x-axis,
with no lateral offset applied. -/
theorem straight_edge_concrete_end :
    getEdgeSchematic eAB [nodeA, nodeB] [eAB] opts35 =
      some (.line ⟨⟨0, 0⟩, ⟨55, 0⟩, "black", 10⟩) :=
  schem_AB_single

/-! ### C1 — the straight end point -/

theorem pullback_collinear (fx fy tx ty k : ℝ) :
    (tx - fx) * (ty - k * Real.sin (atan2 (ty - fy) (tx - fx)) - fy) -
    (ty - fy) * (tx - k * Real.cos (atan2 (ty - fy) (tx - fx)) - fx) = 0 := by
  by_cases hne : tx - fx = 0 ∧ ty - fy = 0
  · rw [hne.1, hne.2]
    ring
  · have hr0 : Real.sqrt ((tx - fx) ^ 2 + (ty - fy) ^ 2) ≠ 0 :=
      ne_of_gt (sqrt_sq_add_sq_pos hne)
    rw [cos_atan2 hne, sin_atan2]
    field_simp
    ring

/-- C1 (amended): for every edge whose endpoints resolve to two different nodes and
for which no reverse edge is present, the builder returns a Straight form whose
`start` is the source position and whose `end` lies on the line through `start` and
the destination's center, at distance exactly `nodeSize(to) + 10` from that center —
for every position of the source node. (When a reverse edge is present both points
are additionally offset sideways by 12 units and the stated distance fails, see the
counterexample.) -/
theorem straight_end_on_line_at_distance
    (edge : GEdge) (nodes : List GNode) (edges : List GEdge) (options : GraphOptions)
    (f t : GNode) (a : Arrow)
    (hres : getFromToNodes edge nodes = some (f, t))
    (hns : 0 ≤ getValue options.nodeSize t)
    (hrev : ∀ e ∈ edges, ¬(e.efrom = t.label ∧ e.eto = f.label))
    (hs : getEdgeSchematic edge nodes edges options = some (.line a)) :
    a.start = ⟨f.x, f.y⟩ ∧
    ptDist a.endPt ⟨t.x, t.y⟩ = getValue options.nodeSize t + 10 ∧
    cross2 a.start ⟨t.x, t.y⟩ a.start a.endPt = 0 := by
  obtain ⟨hft, ha⟩ := getEdgeSchematic_line_eq hres hs
  have hbid : isBidirectionalB f t edges = false := by
    rw [isBidirectionalB, List.any_eq_false]
    intro e he
    simp only [Bool.and_eq_true, beq_iff_eq]
    exact hrev e he
  subst ha
  refine ⟨?_, ?_, ?_⟩
  · simp only [edgeLine]
    exact startPoint_of_not_bidir hbid
  · simp only [edgeLine]
    rw [endPoint_of_not_bidir hbid, pullbackPoint]
    simp only [ptDist]
    exact sqrt_pullback_dist t.x t.y (edgeAngle f t) (getValue options.nodeSize t + 10)
      (by linarith) (Real.sin_sq_add_cos_sq _)
  · simp only [edgeLine]
    rw [startPoint_of_not_bidir hbid, endPoint_of_not_bidir hbid, pullbackPoint]
    simp only [cross2, edgeAngle]
    exact pullback_collinear f.x f.y t.x t.y (getValue options.nodeSize t + 10)

/-- Witness for C1 on the single edge A→B between A`(0,0)` and B`(100,0)`. -/
theorem straight_end_on_line_at_distance_witness :
    getFromToNodes eAB [nodeA, nodeB] = some (nodeA, nodeB) ∧
    0 ≤ getValue opts35.nodeSize nodeB ∧
    (∀ e ∈ ([eAB] : List GEdge), ¬(e.efrom = nodeB.label ∧ e.eto = nodeA.label)) ∧
    getEdgeSchematic eAB [nodeA, nodeB] [eAB] opts35 =
      some (.line ⟨⟨0, 0⟩, ⟨55, 0⟩, "black", 10⟩) ∧
    ((⟨⟨0, 0⟩, ⟨55, 0⟩, "black", 10⟩ : Arrow).start = ⟨nodeA.x, nodeA.y⟩ ∧
     ptDist (⟨⟨0, 0⟩, ⟨55, 0⟩, "black", 10⟩ : Arrow).endPt ⟨nodeB.x, nodeB.y⟩ =
       getValue opts35.nodeSize nodeB + 10 ∧
     cross2 (⟨⟨0, 0⟩, ⟨55, 0⟩, "black", 10⟩ : Arrow).start ⟨nodeB.x, nodeB.y⟩
       (⟨⟨0, 0⟩, ⟨55, 0⟩, "black", 10⟩ : Arrow).start
       (⟨⟨0, 0⟩, ⟨55, 0⟩, "black", 10⟩ : Arrow).endPt = 0) := by
  have hns : (0 : ℝ) ≤ getValue opts35.nodeSize nodeB := by norm_num [getValue, opts35]
  have hrev : ∀ e ∈ ([eAB] : List GEdge), ¬(e.efrom = nodeB.label ∧ e.eto = nodeA.label) := by
    intro e he
    simp only [List.mem_singleton] at he
    subst he
    simp [eAB, nodeA, nodeB]
  exact ⟨res_AB, hns, hrev, schem_AB_single,
    straight_end_on_line_at_distance eAB [nodeA, nodeB] [eAB] opts35 nodeA nodeB
      _ res_AB hns hrev schem_AB_single⟩

/-! ### Evaluations for the bidirectional pair A→B / B→A -/

theorem occ_AB_bidir :
    occupiedPoints nodeA nodeB [nodeA, nodeB] [eAB, eBA] = some [⟨100, 0⟩] := rfl

theorem occ_BA_bidir :
    occupiedPoints nodeB nodeA [nodeA, nodeB] [eAB, eBA] = some [⟨0, 0⟩] := rfl

theorem angle_B_to_A : edgeAngle nodeB nodeA = Real.pi := by
  have h : edgeAngle nodeB nodeA = atan2 0 (-100) := by
    simp [edgeAngle, nodeA, nodeB]
  rw [h]
  exact atan2_zero_of_neg (by norm_num)

theorem pullback_B_to_A : pullbackPoint nodeB nodeA opts35 = ⟨45, 0⟩ := by
  rw [pullbackPoint, angle_B_to_A]
  simp only [Real.cos_pi, Real.sin_pi, Point.mk.injEq]
  constructor <;> norm_num [getValue, opts35, nodeA, nodeB]

theorem start_AB_bidir : startPoint nodeA nodeB [eAB, eBA] = ⟨0, 12⟩ := by
  have hbid : isBidirectionalB nodeA nodeB [eAB, eBA] = true := rfl
  rw [startPoint_of_bidir hbid, angle_A_to_B, zero_add, Real.cos_pi_div_two,
    Real.sin_pi_div_two]
  simp only [Point.mk.injEq]
  constructor <;> norm_num [nodeA]

theorem end_AB_bidir : endPoint nodeA nodeB [eAB, eBA] opts35 = ⟨55, 12⟩ := by
  have hbid : isBidirectionalB nodeA nodeB [eAB, eBA] = true := rfl
  rw [endPoint_of_bidir hbid, angle_A_to_B, zero_add, Real.cos_pi_div_two,
    Real.sin_pi_div_two, pullback_A_to_B]
  simp only [Point.mk.injEq]
  constructor <;> norm_num

theorem start_BA_bidir : startPoint nodeB nodeA [eAB, eBA] = ⟨100, -12⟩ := by
  have hbid : isBidirectionalB nodeB nodeA [eAB, eBA] = true := rfl
  rw [startPoint_of_bidir hbid, angle_B_to_A, cos_add_half_pi, sin_add_half_pi,
    Real.cos_pi, Real.sin_pi]
  simp only [Point.mk.injEq]
  constructor <;> norm_num [nodeB]

theorem end_BA_bidir : endPoint nodeB nodeA [eAB, eBA] opts35 = ⟨45, -12⟩ := by
  have hbid : isBidirectionalB nodeB nodeA [eAB, eBA] = true := rfl
  rw [endPoint_of_bidir hbid, angle_B_to_A, cos_add_half_pi, sin_add_half_pi,
    Real.cos_pi, Real.sin_pi, pullback_B_to_A]
  simp only [Point.mk.injEq]
  constructor <;> norm_num

theorem schem_AB_bidir :
    getEdgeSchematic eAB [nodeA, nodeB] [eAB, eBA] opts35 =
      some (.line ⟨⟨0, 12⟩, ⟨55, 12⟩, "black", 10⟩) := by
  unfold getEdgeSchematic
  rw [res_AB]
  dsimp only
  rw [occ_AB_bidir]
  dsimp only
  rw [if_neg nodeA_ne_nodeB]
  have h1 : edgeLine eAB nodeA nodeB [eAB, eBA] opts35 = ⟨⟨0, 12⟩, ⟨55, 12⟩, "black", 10⟩ := by
    rw [edgeLine, start_AB_bidir, end_AB_bidir]
    simp [getValue, opts35]
  rw [h1]

theorem nodeB_ne_nodeA : nodeB ≠ nodeA := by
  intro h
  have := congrArg GNode.id h
  simp [nodeA, nodeB] at this

theorem schem_BA_bidir :
    getEdgeSchematic eBA [nodeA, nodeB] [eAB, eBA] opts35 =
      some (.line ⟨⟨100, -12⟩, ⟨45, -12⟩, "black", 10⟩) := by
  unfold getEdgeSchematic
  rw [res_BA]
  dsimp only
  rw [occ_BA_bidir]
  dsimp only
  rw [if_neg nodeB_ne_nodeA]
  have h1 : edgeLine eBA nodeB nodeA [eAB, eBA] opts35 =
      ⟨⟨100, -12⟩, ⟨45, -12⟩, "black", 10⟩ := by
    rw [edgeLine, start_BA_bidir, end_BA_bidir]
    simp [getValue, opts35]
  rw [h1]

/-- C1 counterexample: with the reverse edge B→A present, the Straight form of A→B is
laterally offset, and its `end = (55, 12)` sits at distance `√2169 ≈ 46.6`, not
`nodeSize(to) + 10 = 45`, from the destination's center — so the claimed distance
does not hold "whether or not a reverse edge is present". -/
theorem straight_end_distance_counterexample :
    getEdgeSchematic eAB [nodeA, nodeB] [eAB, eBA] opts35 =
      some (.line ⟨⟨0, 12⟩, ⟨55, 12⟩, "black", 10⟩) ∧
    ptDist ⟨55, 12⟩ ⟨nodeB.x, nodeB.y⟩ ≠ getValue opts35.nodeSize nodeB + 10 := by
  refine ⟨schem_AB_bidir, ?_⟩
  have h45 : getValue opts35.nodeSize nodeB + 10 = 45 := by norm_num [getValue, opts35]
  have harg : ptDist ⟨55, 12⟩ ⟨nodeB.x, nodeB.y⟩ = Real.sqrt 2169 := by
    simp only [ptDist, nodeB]
    norm_num
  rw [h45, harg]
  intro h
  have h2 : Real.sqrt 2169 ^ 2 = 2169 := Real.sq_sqrt (by norm_num)
  rw [h] at h2
  norm_num at h2

/-! ### C2 — the self-loop angle -/

theorem las_singleton (origin p : Point) :
    getLargestAngularSpace origin [p] =
      atan2 (p.y - origin.y) (p.x - origin.x) + Real.pi := by
  simp only [getLargestAngularSpace, List.map, sortAsc, insertAsc, consecGaps,
    pickLargest, List.foldl, List.getLastD]
  ring

/-- C2 (amended): for a self-loop edge present in the edge collection, the U-turn
form's `angle` equals `getLargestAngularSpace` evaluated over the resolved
other-endpoint positions of the node's incident non-self-loop edges — but with the
origin at `(node.x, node.y + 12)`, not at the node's own position: a self-loop always
passes the bidirectional check by matching itself, so the builder hands
`getLargestAngularSpace` the lane-offset `start` point (the degenerate self-loop
angle is `atan2 0 0 = 0`, making the offset exactly `(0, 12)`). -/
theorem selfloop_angle_uses_offset_origin
    (edge : GEdge) (nodes : List GNode) (edges : List GEdge) (options : GraphOptions)
    (f t : GNode) (u : UTurnArrow) (occ : List Point)
    (hres : getFromToNodes edge nodes = some (f, t))
    (hmem : edge ∈ edges)
    (hocc : occupiedPoints f t nodes edges = some occ)
    (hs : getEdgeSchematic edge nodes edges options = some (.uturn u)) :
    u.angle = getLargestAngularSpace ⟨f.x, f.y + 12⟩ occ := by
  obtain ⟨hft, occ', hocc', hu⟩ := getEdgeSchematic_uturn_eq hres hs
  have hocc2 : occ' = occ := by
    rw [hocc'] at hocc
    exact Option.some.inj hocc
  subst hocc2
  subst hu
  simp only [selfDirectedEdgeLine]
  congr 1
  obtain ⟨hf, ht⟩ := getFromToNodes_labels hres
  have hlab1 : edge.efrom = t.label := by rw [← hft]; exact hf.symm
  have hlab2 : edge.eto = f.label := by rw [hft]; exact ht.symm
  have hbid : isBidirectionalB f t edges = true := by
    rw [isBidirectionalB, List.any_eq_true]
    refine ⟨edge, hmem, ?_⟩
    simp only [Bool.and_eq_true, beq_iff_eq]
    exact ⟨hlab1, hlab2⟩
  rw [startPoint_of_bidir hbid]
  subst hft
  rw [edgeAngle, sub_self, sub_self, atan2_zero_zero, zero_add, Real.cos_pi_div_two,
    Real.sin_pi_div_two]
  simp only [Point.mk.injEq]
  constructor <;> ring

/-! ### Evaluations for the self-loop scenario -/

theorem occ_AA :
    occupiedPoints nodeA nodeA [nodeA, nodeB] [eAA, eAB] = some [⟨100, 0⟩] := rfl

theorem start_AA : startPoint nodeA nodeA [eAA, eAB] = ⟨0, 12⟩ := by
  have hbid : isBidirectionalB nodeA nodeA [eAA, eAB] = true := rfl
  have hang : edgeAngle nodeA nodeA = 0 := by
    simp [edgeAngle, nodeA, atan2_zero_zero]
  rw [startPoint_of_bidir hbid, hang, zero_add, Real.cos_pi_div_two, Real.sin_pi_div_two]
  simp only [Point.mk.injEq]
  constructor <;> norm_num [nodeA]

theorem schem_AA :
    getEdgeSchematic eAA [nodeA, nodeB] [eAA, eAB] opts35 =
      some (.uturn ⟨12, ⟨0, 0⟩, 80, 25,
        getLargestAngularSpace ⟨0, 12⟩ [⟨100, 0⟩], 10, "black"⟩) := by
  unfold getEdgeSchematic
  rw [res_AA]
  dsimp only
  rw [occ_AA]
  dsimp only
  rw [if_pos rfl]
  have h1 : selfDirectedEdgeLine eAA nodeA nodeA [eAA, eAB] opts35 [⟨100, 0⟩] =
      ⟨12, ⟨0, 0⟩, 80, 25, getLargestAngularSpace ⟨0, 12⟩ [⟨100, 0⟩], 10, "black"⟩ := by
    rw [selfDirectedEdgeLine, start_AA]
    simp [getValue, opts35, nodeA]
  rw [h1]

/-- C2 counterexample: node A at the origin with a self-loop and one further edge to
B at `(100, 0)`. The builder's U-turn angle is computed from the offset origin
`(0, 12)` and differs from `getLargestAngularSpace` at the node's own position
`(0, 0)`, falsifying the claim as stated. -/
theorem selfloop_angle_counterexample :
    getEdgeSchematic eAA [nodeA, nodeB] [eAA, eAB] opts35 =
      some (.uturn ⟨12, ⟨0, 0⟩, 80, 25,
        getLargestAngularSpace ⟨0, 12⟩ [⟨100, 0⟩], 10, "black"⟩) ∧
    getLargestAngularSpace ⟨0, 12⟩ [⟨100, 0⟩] ≠
      getLargestAngularSpace ⟨0, 0⟩ [⟨100, 0⟩] := by
  refine ⟨schem_AA, ?_⟩
  rw [las_singleton, las_singleton]
  simp only
  norm_num
  rw [atan2_zero_of_nonneg (by norm_num : (0 : ℝ) ≤ 100)]
  intro h
  have h4 : atan2 (-12) 100 = 0 := by linarith
  have h5 := sin_atan2 (-12) 100
  rw [h4, Real.sin_zero] at h5
  have h6 : Real.sqrt ((100 : ℝ) ^ 2 + (-12 : ℝ) ^ 2) ≠ 0 :=
    ne_of_gt (sqrt_sq_add_sq_pos (by simp))
  rw [eq_div_iff h6] at h5
  norm_num at h5

/-- Witness for C2 on the concrete self-loop scenario. -/
theorem selfloop_angle_uses_offset_origin_witness :
    getFromToNodes eAA [nodeA, nodeB] = some (nodeA, nodeA) ∧
    eAA ∈ ([eAA, eAB] : List GEdge) ∧
    occupiedPoints nodeA nodeA [nodeA, nodeB] [eAA, eAB] = some [⟨100, 0⟩] ∧
    getEdgeSchematic eAA [nodeA, nodeB] [eAA, eAB] opts35 =
      some (.uturn ⟨12, ⟨0, 0⟩, 80, 25,
        getLargestAngularSpace ⟨0, 12⟩ [⟨100, 0⟩], 10, "black"⟩) ∧
    (⟨12, ⟨0, 0⟩, 80, 25, getLargestAngularSpace ⟨0, 12⟩ [⟨100, 0⟩], 10, "black"⟩ :
      UTurnArrow).angle = getLargestAngularSpace ⟨nodeA.x, nodeA.y + 12⟩ [⟨100, 0⟩] := by
  refine ⟨res_AA, by simp, rfl, schem_AA, ?_⟩
  exact selfloop_angle_uses_offset_origin eAA [nodeA, nodeB] [eAA, eAB] opts35 nodeA nodeA
    _ _ res_AA (by simp) rfl schem_AA

/-! ### C6 — opposite lanes of a bidirectional pair -/

theorem offset_segments_disjoint (P Q E₁ E₂ of : Point) (s t : ℝ)
    (h1 : (Q.x - P.x) * of.x + (Q.y - P.y) * of.y = 0)
    (h2 : (E₁.x - P.x) * of.x + (E₁.y - P.y) * of.y = 0)
    (h3 : (E₂.x - Q.x) * of.x + (E₂.y - Q.y) * of.y = 0)
    (hof : 0 < of.x ^ 2 + of.y ^ 2) :
    (⟨P.x + of.x + s * (E₁.x + of.x - (P.x + of.x)),
      P.y + of.y + s * (E₁.y + of.y - (P.y + of.y))⟩ : Point) ≠
    ⟨Q.x - of.x + t * (E₂.x - of.x - (Q.x - of.x)),
     Q.y - of.y + t * (E₂.y - of.y - (Q.y - of.y))⟩ := by
  intro heq
  have hx := congrArg Point.x heq
  have hy := congrArg Point.y heq
  simp only at hx hy
  have hkey : 2 * (of.x ^ 2 + of.y ^ 2) = 0 := by
    linear_combination of.x * hx + of.y * hy + h1 - s * h2 + t * h3
  linarith

theorem lane_norm_sq (dx dy r : ℝ) (h0 : r ≠ 0) (h2 : r ^ 2 = dx ^ 2 + dy ^ 2) :
    (-(12 * dy) / r) ^ 2 + (12 * dx / r) ^ 2 = 144 := by
  field_simp
  linear_combination (-144 : ℝ) * h2

/-- C6 (amended): for every pair of nodes `A`, `B` at distinct positions carrying
both edges A→B and B→A, both edges are flagged bidirectional, and the two Straight
forms' `start`/`end` points are offset from the unoffset source position and
pullback point by the same perpendicular 12-unit lane vector in opposite signs, so
the two rendered lanes share no point. (Distinct node records with coincident
positions break the claim, see the counterexample.) -/
theorem bidirectional_pair_opposite_lanes
    (e₁ e₂ : GEdge) (nodes : List GNode) (edges : List GEdge) (options : GraphOptions)
    (A B : GNode) (a₁ a₂ : Arrow)
    (hres₁ : getFromToNodes e₁ nodes = some (A, B))
    (hres₂ : getFromToNodes e₂ nodes = some (B, A))
    (hmem₁ : e₁ ∈ edges) (hmem₂ : e₂ ∈ edges)
    (hpos : (⟨A.x, A.y⟩ : Point) ≠ ⟨B.x, B.y⟩)
    (hs₁ : getEdgeSchematic e₁ nodes edges options = some (.line a₁))
    (hs₂ : getEdgeSchematic e₂ nodes edges options = some (.line a₂)) :
    isBidirectionalFlag e₁ nodes edges = some true ∧
    isBidirectionalFlag e₂ nodes edges = some true ∧
    dot2 ⟨A.x, A.y⟩ ⟨B.x, B.y⟩ ⟨0, 0⟩ (laneOffset ⟨A.x, A.y⟩ ⟨B.x, B.y⟩) = 0 ∧
    ptDist ⟨0, 0⟩ (laneOffset ⟨A.x, A.y⟩ ⟨B.x, B.y⟩) = 12 ∧
    a₁.start = ⟨A.x + (laneOffset ⟨A.x, A.y⟩ ⟨B.x, B.y⟩).x,
                A.y + (laneOffset ⟨A.x, A.y⟩ ⟨B.x, B.y⟩).y⟩ ∧
    a₁.endPt = ⟨(pullbackPoint A B options).x + (laneOffset ⟨A.x, A.y⟩ ⟨B.x, B.y⟩).x,
                (pullbackPoint A B options).y + (laneOffset ⟨A.x, A.y⟩ ⟨B.x, B.y⟩).y⟩ ∧
    a₂.start = ⟨B.x - (laneOffset ⟨A.x, A.y⟩ ⟨B.x, B.y⟩).x,
                B.y - (laneOffset ⟨A.x, A.y⟩ ⟨B.x, B.y⟩).y⟩ ∧
    a₂.endPt = ⟨(pullbackPoint B A options).x - (laneOffset ⟨A.x, A.y⟩ ⟨B.x, B.y⟩).x,
                (pullbackPoint B A options).y - (laneOffset ⟨A.x, A.y⟩ ⟨B.x, B.y⟩).y⟩ ∧
    ∀ s t : ℝ, segPt a₁ s ≠ segPt a₂ t := by
  obtain ⟨hf1, ht1⟩ := getFromToNodes_labels hres₁
  obtain ⟨hf2, ht2⟩ := getFromToNodes_labels hres₂
  obtain ⟨-, ha₁⟩ := getEdgeSchematic_line_eq hres₁ hs₁
  obtain ⟨-, ha₂⟩ := getEdgeSchematic_line_eq hres₂ hs₂
  have hne : ¬(B.x - A.x = 0 ∧ B.y - A.y = 0) := by
    rintro ⟨h1, h2⟩
    exact hpos (Point.eq_of_coords (by simp only; linarith) (by simp only; linarith))
  have hne₂ : ¬(A.x - B.x = 0 ∧ A.y - B.y = 0) := by
    rintro ⟨h1, h2⟩
    exact hne ⟨by linarith, by linarith⟩
  have hr0 : Real.sqrt ((B.x - A.x) ^ 2 + (B.y - A.y) ^ 2) ≠ 0 :=
    ne_of_gt (sqrt_sq_add_sq_pos hne)
  have hr2 : Real.sqrt ((B.x - A.x) ^ 2 + (B.y - A.y) ^ 2) ^ 2 =
      (B.x - A.x) ^ 2 + (B.y - A.y) ^ 2 := sq_sqrt_sq_add_sq _ _
  have hrsym : Real.sqrt ((A.x - B.x) ^ 2 + (A.y - B.y) ^ 2) =
      Real.sqrt ((B.x - A.x) ^ 2 + (B.y - A.y) ^ 2) := by
    congr 1
    ring
  have hcosAB : Real.cos (edgeAngle A B) =
      (B.x - A.x) / Real.sqrt ((B.x - A.x) ^ 2 + (B.y - A.y) ^ 2) := by
    rw [edgeAngle]
    exact cos_atan2 hne
  have hsinAB : Real.sin (edgeAngle A B) =
      (B.y - A.y) / Real.sqrt ((B.x - A.x) ^ 2 + (B.y - A.y) ^ 2) := by
    rw [edgeAngle]
    exact sin_atan2 _ _
  have hcosBA : Real.cos (edgeAngle B A) =
      (A.x - B.x) / Real.sqrt ((B.x - A.x) ^ 2 + (B.y - A.y) ^ 2) := by
    rw [edgeAngle, cos_atan2 hne₂, hrsym]
  have hsinBA : Real.sin (edgeAngle B A) =
      (A.y - B.y) / Real.sqrt ((B.x - A.x) ^ 2 + (B.y - A.y) ^ 2) := by
    rw [edgeAngle, sin_atan2, hrsym]
  have hbid₁ : isBidirectionalB A B edges = true := by
    rw [isBidirectionalB, List.any_eq_true]
    refine ⟨e₂, hmem₂, ?_⟩
    simp only [Bool.and_eq_true, beq_iff_eq]
    exact ⟨hf2.symm, ht2.symm⟩
  have hbid₂ : isBidirectionalB B A edges = true := by
    rw [isBidirectionalB, List.any_eq_true]
    refine ⟨e₁, hmem₁, ?_⟩
    simp only [Bool.and_eq_true, beq_iff_eq]
    exact ⟨hf1.symm, ht1.symm⟩
  have hcosπ₁ : Real.cos (edgeAngle A B + Real.pi / 2) * 12 =
      (laneOffset ⟨A.x, A.y⟩ ⟨B.x, B.y⟩).x := by
    rw [cos_add_half_pi, hsinAB]
    simp only [laneOffset]
    ring
  have hsinπ₁ : Real.sin (edgeAngle A B + Real.pi / 2) * 12 =
      (laneOffset ⟨A.x, A.y⟩ ⟨B.x, B.y⟩).y := by
    rw [sin_add_half_pi, hcosAB]
    simp only [laneOffset]
    ring
  have hcosπ₂ : Real.cos (edgeAngle B A + Real.pi / 2) * 12 =
      -(laneOffset ⟨A.x, A.y⟩ ⟨B.x, B.y⟩).x := by
    rw [cos_add_half_pi, hsinBA]
    simp only [laneOffset]
    field_simp
    ring
  have hsinπ₂ : Real.sin (edgeAngle B A + Real.pi / 2) * 12 =
      -(laneOffset ⟨A.x, A.y⟩ ⟨B.x, B.y⟩).y := by
    rw [sin_add_half_pi, hcosBA]
    simp only [laneOffset]
    field_simp
    ring
  have h144 : (laneOffset ⟨A.x, A.y⟩ ⟨B.x, B.y⟩).x ^ 2 +
      (laneOffset ⟨A.x, A.y⟩ ⟨B.x, B.y⟩).y ^ 2 = 144 := by
    simp only [laneOffset]
    exact lane_norm_sq (B.x - A.x) (B.y - A.y) _ hr0 hr2
  have h5 : a₁.start = ⟨A.x + (laneOffset ⟨A.x, A.y⟩ ⟨B.x, B.y⟩).x,
      A.y + (laneOffset ⟨A.x, A.y⟩ ⟨B.x, B.y⟩).y⟩ := by
    rw [ha₁]
    simp only [edgeLine]
    rw [startPoint_of_bidir hbid₁, hcosπ₁, hsinπ₁]
  have h6 : a₁.endPt = ⟨(pullbackPoint A B options).x + (laneOffset ⟨A.x, A.y⟩ ⟨B.x, B.y⟩).x,
      (pullbackPoint A B options).y + (laneOffset ⟨A.x, A.y⟩ ⟨B.x, B.y⟩).y⟩ := by
    rw [ha₁]
    simp only [edgeLine]
    rw [endPoint_of_bidir hbid₁, hcosπ₁, hsinπ₁]
  have h7 : a₂.start = ⟨B.x - (laneOffset ⟨A.x, A.y⟩ ⟨B.x, B.y⟩).x,
      B.y - (laneOffset ⟨A.x, A.y⟩ ⟨B.x, B.y⟩).y⟩ := by
    rw [ha₂]
    simp only [edgeLine]
    rw [startPoint_of_bidir hbid₂, hcosπ₂, hsinπ₂]
    simp only [Point.mk.injEq]
    constructor <;> ring
  have h8 : a₂.endPt = ⟨(pullbackPoint B A options).x - (laneOffset ⟨A.x, A.y⟩ ⟨B.x, B.y⟩).x,
      (pullbackPoint B A options).y - (laneOffset ⟨A.x, A.y⟩ ⟨B.x, B.y⟩).y⟩ := by
    rw [ha₂]
    simp only [edgeLine]
    rw [endPoint_of_bidir hbid₂, hcosπ₂, hsinπ₂]
    simp only [Point.mk.injEq]
    constructor <;> ring
  refine ⟨?_, ?_, ?_, ?_, h5, h6, h7, h8, ?_⟩
  · rw [isBidirectionalFlag, hres₁]
    simp only [Option.map_some']
    rw [hbid₁]
  · rw [isBidirectionalFlag, hres₂]
    simp only [Option.map_some']
    rw [hbid₂]
  · simp only [dot2, laneOffset]
    field_simp
    first
    | ring1
    | (left; first | trivial | ring1)
  · simp only [ptDist]
    have harg : (0 - (laneOffset ⟨A.x, A.y⟩ ⟨B.x, B.y⟩).x) ^ 2 +
        (0 - (laneOffset ⟨A.x, A.y⟩ ⟨B.x, B.y⟩).y) ^ 2 = 144 := by
      linear_combination h144
    rw [harg, show (144 : ℝ) = 12 ^ 2 by norm_num, Real.sqrt_sq (by norm_num : (0 : ℝ) ≤ 12)]
  · intro s t
    rw [segPt, segPt, h5, h6, h7, h8]
    simp only
    exact offset_segments_disjoint ⟨A.x, A.y⟩ ⟨B.x, B.y⟩ (pullbackPoint A B options)
      (pullbackPoint B A options) (laneOffset ⟨A.x, A.y⟩ ⟨B.x, B.y⟩) s t
      (by simp only [laneOffset]
          field_simp [hr0]
          first
          | ring1
          | (left; first | trivial | ring1))
      (by simp only [pullbackPoint, laneOffset]
          rw [hcosAB, hsinAB]
          field_simp [hr0]
          first
          | ring1
          | (left; first | trivial | ring1))
      (by simp only [pullbackPoint, laneOffset]
          rw [hcosBA, hsinBA]
          field_simp [hr0]
          first
          | ring1
          | (left; first | trivial | ring1))
      (by rw [h144]; norm_num)

/-- Witness for C6 on the concrete pair A`(0,0)` / B`(100,0)` with both edges. -/
theorem bidirectional_pair_opposite_lanes_witness :
    getFromToNodes eAB [nodeA, nodeB] = some (nodeA, nodeB) ∧
    getFromToNodes eBA [nodeA, nodeB] = some (nodeB, nodeA) ∧
    eAB ∈ ([eAB, eBA] : List GEdge) ∧
    eBA ∈ ([eAB, eBA] : List GEdge) ∧
    (⟨nodeA.x, nodeA.y⟩ : Point) ≠ ⟨nodeB.x, nodeB.y⟩ ∧
    getEdgeSchematic eAB [nodeA, nodeB] [eAB, eBA] opts35 =
      some (.line ⟨⟨0, 12⟩, ⟨55, 12⟩, "black", 10⟩) ∧
    getEdgeSchematic eBA [nodeA, nodeB] [eAB, eBA] opts35 =
      some (.line ⟨⟨100, -12⟩, ⟨45, -12⟩, "black", 10⟩) ∧
    (isBidirectionalFlag eAB [nodeA, nodeB] [eAB, eBA] = some true ∧
     isBidirectionalFlag eBA [nodeA, nodeB] [eAB, eBA] = some true ∧
     dot2 ⟨nodeA.x, nodeA.y⟩ ⟨nodeB.x, nodeB.y⟩ ⟨0, 0⟩
       (laneOffset ⟨nodeA.x, nodeA.y⟩ ⟨nodeB.x, nodeB.y⟩) = 0 ∧
     ptDist ⟨0, 0⟩ (laneOffset ⟨nodeA.x, nodeA.y⟩ ⟨nodeB.x, nodeB.y⟩) = 12 ∧
     (⟨⟨0, 12⟩, ⟨55, 12⟩, "black", 10⟩ : Arrow).start =
       ⟨nodeA.x + (laneOffset ⟨nodeA.x, nodeA.y⟩ ⟨nodeB.x, nodeB.y⟩).x,
        nodeA.y + (laneOffset ⟨nodeA.x, nodeA.y⟩ ⟨nodeB.x, nodeB.y⟩).y⟩ ∧
     (⟨⟨0, 12⟩, ⟨55, 12⟩, "black", 10⟩ : Arrow).endPt =
       ⟨(pullbackPoint nodeA nodeB opts35).x +
          (laneOffset ⟨nodeA.x, nodeA.y⟩ ⟨nodeB.x, nodeB.y⟩).x,
        (pullbackPoint nodeA nodeB opts35).y +
          (laneOffset ⟨nodeA.x, nodeA.y⟩ ⟨nodeB.x, nodeB.y⟩).y⟩ ∧
     (⟨⟨100, -12⟩, ⟨45, -12⟩, "black", 10⟩ : Arrow).start =
       ⟨nodeB.x - (laneOffset ⟨nodeA.x, nodeA.y⟩ ⟨nodeB.x, nodeB.y⟩).x,
        nodeB.y - (laneOffset ⟨nodeA.x, nodeA.y⟩ ⟨nodeB.x, nodeB.y⟩).y⟩ ∧
     (⟨⟨100, -12⟩, ⟨45, -12⟩, "black", 10⟩ : Arrow).endPt =
       ⟨(pullbackPoint nodeB nodeA opts35).x -
          (laneOffset ⟨nodeA.x, nodeA.y⟩ ⟨nodeB.x, nodeB.y⟩).x,
        (pullbackPoint nodeB nodeA opts35).y -
          (laneOffset ⟨nodeA.x, nodeA.y⟩ ⟨nodeB.x, nodeB.y⟩).y⟩ ∧
     ∀ s t : ℝ, segPt ⟨⟨0, 12⟩, ⟨55, 12⟩, "black", 10⟩ s ≠
       segPt ⟨⟨100, -12⟩, ⟨45, -12⟩, "black", 10⟩ t) := by
  have hpos : (⟨nodeA.x, nodeA.y⟩ : Point) ≠ ⟨nodeB.x, nodeB.y⟩ := by
    intro h
    have := congrArg Point.x h
    simp [nodeA, nodeB] at this
  refine ⟨res_AB, res_BA, by simp, by simp, hpos, schem_AB_bidir, schem_BA_bidir, ?_⟩
  exact bidirectional_pair_opposite_lanes eAB eBA [nodeA, nodeB] [eAB, eBA] opts35
    nodeA nodeB _ _ res_AB res_BA (by simp) (by simp) hpos schem_AB_bidir schem_BA_bidir

/-! ### Evaluations for the coincident-position pair -/

theorem res_AB0 : getFromToNodes eAB [nodeA, nodeB0] = some (nodeA, nodeB0) := rfl

theorem res_BA0 : getFromToNodes eBA [nodeA, nodeB0] = some (nodeB0, nodeA) := rfl

theorem occ_AB0 :
    occupiedPoints nodeA nodeB0 [nodeA, nodeB0] [eAB, eBA] = some [⟨0, 0⟩] := rfl

theorem occ_BA0 :
    occupiedPoints nodeB0 nodeA [nodeA, nodeB0] [eAB, eBA] = some [⟨0, 0⟩] := rfl

theorem angle_A_to_B0 : edgeAngle nodeA nodeB0 = 0 := by
  simp [edgeAngle, nodeA, nodeB0, atan2_zero_zero]

theorem angle_B0_to_A : edgeAngle nodeB0 nodeA = 0 := by
  simp [edgeAngle, nodeA, nodeB0, atan2_zero_zero]

theorem pullback_A_to_B0 : pullbackPoint nodeA nodeB0 opts35 = ⟨-45, 0⟩ := by
  rw [pullbackPoint, angle_A_to_B0]
  simp only [Real.cos_zero, Real.sin_zero, Point.mk.injEq]
  constructor <;> norm_num [getValue, opts35, nodeB0]

theorem pullback_B0_to_A : pullbackPoint nodeB0 nodeA opts35 = ⟨-45, 0⟩ := by
  rw [pullbackPoint, angle_B0_to_A]
  simp only [Real.cos_zero, Real.sin_zero, Point.mk.injEq]
  constructor <;> norm_num [getValue, opts35, nodeA]

theorem start_AB0 : startPoint nodeA nodeB0 [eAB, eBA] = ⟨0, 12⟩ := by
  have hbid : isBidirectionalB nodeA nodeB0 [eAB, eBA] = true := rfl
  rw [startPoint_of_bidir hbid, angle_A_to_B0, zero_add, Real.cos_pi_div_two,
    Real.sin_pi_div_two]
  simp only [Point.mk.injEq]
  constructor <;> norm_num [nodeA]

theorem end_AB0 : endPoint nodeA nodeB0 [eAB, eBA] opts35 = ⟨-45, 12⟩ := by
  have hbid : isBidirectionalB nodeA nodeB0 [eAB, eBA] = true := rfl
  rw [endPoint_of_bidir hbid, angle_A_to_B0, zero_add, Real.cos_pi_div_two,
    Real.sin_pi_div_two, pullback_A_to_B0]
  simp only [Point.mk.injEq]
  constructor <;> norm_num

theorem start_BA0 : startPoint nodeB0 nodeA [eAB, eBA] = ⟨0, 12⟩ := by
  have hbid : isBidirectionalB nodeB0 nodeA [eAB, eBA] = true := rfl
  rw [startPoint_of_bidir hbid, angle_B0_to_A, zero_add, Real.cos_pi_div_two,
    Real.sin_pi_div_two]
  simp only [Point.mk.injEq]
  constructor <;> norm_num [nodeB0]

theorem end_BA0 : endPoint nodeB0 nodeA [eAB, eBA] opts35 = ⟨-45, 12⟩ := by
  have hbid : isBidirectionalB nodeB0 nodeA [eAB, eBA] = true := rfl
  rw [endPoint_of_bidir hbid, angle_B0_to_A, zero_add, Real.cos_pi_div_two,
    Real.sin_pi_div_two, pullback_B0_to_A]
  simp only [Point.mk.injEq]
  constructor <;> norm_num

theorem nodeA_ne_nodeB0 : nodeA ≠ nodeB0 := by
  intro h
  have := congrArg GNode.id h
  simp [nodeA, nodeB0] at this

theorem nodeB0_ne_nodeA : nodeB0 ≠ nodeA := by
  intro h
  have := congrArg GNode.id h
  simp [nodeA, nodeB0] at this

/-- C6 counterexample: two distinct node records at the same position `(0,0)` with
both edges A→B and B→A. The degenerate direction angle is `atan2 0 0 = 0` for both
edges, so both lanes are offset in the same direction and the two Straight forms are
identical — the lanes coincide at every point, falsifying the opposite-offset and
no-overlap parts of the claim for merely "distinct nodes". -/
theorem bidirectional_pair_coincident_counterexample :
    nodeA ≠ nodeB0 ∧
    getEdgeSchematic eAB [nodeA, nodeB0] [eAB, eBA] opts35 =
      some (.line ⟨⟨0, 12⟩, ⟨-45, 12⟩, "black", 10⟩) ∧
    getEdgeSchematic eBA [nodeA, nodeB0] [eAB, eBA] opts35 =
      some (.line ⟨⟨0, 12⟩, ⟨-45, 12⟩, "black", 10⟩) := by
  refine ⟨nodeA_ne_nodeB0, ?_, ?_⟩
  · unfold getEdgeSchematic
    rw [res_AB0]
    dsimp only
    rw [occ_AB0]
    dsimp only
    rw [if_neg nodeA_ne_nodeB0]
    have h1 : edgeLine eAB nodeA nodeB0 [eAB, eBA] opts35 =
        ⟨⟨0, 12⟩, ⟨-45, 12⟩, "black", 10⟩ := by
      rw [edgeLine, start_AB0, end_AB0]
      simp [getValue, opts35]
    rw [h1]
  · unfold getEdgeSchematic
    rw [res_BA0]
    dsimp only
    rw [occ_BA0]
    dsimp only
    rw [if_neg nodeB0_ne_nodeA]
    have h1 : edgeLine eBA nodeB0 nodeA [eAB, eBA] opts35 =
        ⟨⟨0, 12⟩, ⟨-45, 12⟩, "black", 10⟩ := by
      rw [edgeLine, start_BA0, end_BA0]
      simp [getValue, opts35]
    rw [h1]

/-! ### C5 — removing a node removes its edges -/

theorem eraseFirst_eq_filter (nid : ℤ) :
    ∀ l : List BasicNode, (l.map BasicNode.id).Nodup →
      (match l.findIdx? (fun n => n.id == nid) with
       | some i => l.eraseIdx i
       | none => l) = l.filter (fun n => !(n.id == nid)) := by
  intro l
  induction l with
  | nil => intro _; rfl
  | cons a l ih =>
      intro hnodup
      rw [List.map_cons, List.nodup_cons] at hnodup
      obtain ⟨hnotin, hnd⟩ := hnodup
      by_cases hpa : a.id = nid
      · have hfind : List.findIdx? (fun n => n.id == nid) (a :: l) = some 0 := by
          rw [List.findIdx?_cons]
          simp [hpa]
        rw [hfind, List.filter_cons]
        simp only [hpa, beq_self_eq_true, Bool.not_true, Bool.false_eq_true, if_false]
        rw [List.eraseIdx_cons_zero]
        symm
        apply List.filter_eq_self.mpr
        intro b hb
        have hbne : b.id ≠ nid := by
          intro hc
          apply hnotin
          rw [hpa, ← hc]
          exact List.mem_map_of_mem BasicNode.id hb
        simp [hbne]
      · have hfa : (a.id == nid) = false := by simp [hpa]
        have hstep : List.findIdx? (fun n => n.id == nid) (a :: l) =
            (List.findIdx? (fun n => n.id == nid) l).map (fun i => i + 1) := by
          rw [List.findIdx?_cons]
          simp only [hfa, Bool.false_eq_true, if_false]
          exact List.findIdx?_succ
        have hkeep : (!(a.id == nid)) = true := by simp [hpa]
        rw [hstep, List.filter_cons, hkeep, if_pos rfl]
        cases hfl : List.findIdx? (fun n => n.id == nid) l with
        | none =>
            simp only [Option.map_none']
            have hih := ih hnd
            rw [hfl] at hih
            dsimp only at hih
            rw [← hih]
        | some j =>
            simp only [Option.map_some']
            rw [List.eraseIdx_cons_succ]
            have hih := ih hnd
            rw [hfl] at hih
            dsimp only at hih
            rw [hih]

/-- C5: for every node id and every state whose node ids are pairwise distinct (the
data-model invariant), `removeNode` removes the node with that id (if present) and
every edge whose `from` or `to` equals the id, leaving all other nodes and all edges
not touching the id unchanged — and afterwards no remaining edge references the id. -/
theorem removeNode_spec (s : GraphState) (nid : ℤ)
    (huniq : (s.nodes.map BasicNode.id).Nodup) :
    (removeNode s nid).nodes = s.nodes.filter (fun n => !(n.id == nid)) ∧
    (removeNode s nid).edges = s.edges.filter (fun e => e.efrom != nid && e.eto != nid) ∧
    ∀ e ∈ (removeNode s nid).edges, e.efrom ≠ nid ∧ e.eto ≠ nid := by
  refine ⟨eraseFirst_eq_filter nid s.nodes huniq, rfl, ?_⟩
  intro e he
  obtain ⟨-, hp⟩ := List.mem_filter.mp he
  simp only [Bool.and_eq_true, bne_iff_ne] at hp
  exact hp

/-- Witness for C5: removing node 1 from a two-node state with edges 1→2 and 2→2. -/
theorem removeNode_spec_witness :
    (([⟨1, 0, 0⟩, ⟨2, 0, 0⟩] : List BasicNode).map BasicNode.id).Nodup ∧
    ((removeNode ⟨[⟨1, 0, 0⟩, ⟨2, 0, 0⟩], [⟨2, 1⟩, ⟨2, 2⟩]⟩ 1).nodes =
        ([⟨1, 0, 0⟩, ⟨2, 0, 0⟩] : List BasicNode).filter (fun n => !(n.id == 1)) ∧
     (removeNode ⟨[⟨1, 0, 0⟩, ⟨2, 0, 0⟩], [⟨2, 1⟩, ⟨2, 2⟩]⟩ 1).edges =
        ([⟨2, 1⟩, ⟨2, 2⟩] : List BasicEdge).filter (fun e => e.efrom != 1 && e.eto != 1) ∧
     ∀ e ∈ (removeNode ⟨[⟨1, 0, 0⟩, ⟨2, 0, 0⟩], [⟨2, 1⟩, ⟨2, 2⟩]⟩ 1).edges,
       e.efrom ≠ 1 ∧ e.eto ≠ 1) := by
  have hn : (([⟨1, 0, 0⟩, ⟨2, 0, 0⟩] : List BasicNode).map BasicNode.id).Nodup := by
    rw [show ([⟨1, 0, 0⟩, ⟨2, 0, 0⟩] : List BasicNode).map BasicNode.id = [1, 2] from rfl]
    decide
  exact ⟨hn, removeNode_spec _ 1 hn⟩

/-! ### C4 — node-id uniqueness fails after removal -/

/-- C4 (code bug): starting from the empty graph, the sequence `addNode {}`,
`addNode {}`, `removeNode 1`, `addNode {}` produces two nodes with the same id 2 —
the generated id `nodes.length + 1` collides with a surviving id after a removal, so
node identifiers are not unique as the data model requires. -/
theorem addNode_reuses_id_after_removal :
    ¬ (((addNode (removeNode (addNode (addNode ⟨[], []⟩ ⟨none, none, none⟩)
        ⟨none, none, none⟩) 1) ⟨none, none, none⟩).nodes.map BasicNode.id).Nodup) := by
  have h : (addNode (removeNode (addNode (addNode ⟨[], []⟩ ⟨none, none, none⟩)
      ⟨none, none, none⟩) 1) ⟨none, none, none⟩).nodes.map BasicNode.id = [2, 2] := by
    norm_num [addNode, removeNode, orElseInt, orElseReal, List.findIdx?_cons,
      List.eraseIdx_cons_zero]
  rw [h]
  decide

/-! ### C10 — dangling edges draw nothing and the redraw completes -/

theorem flatMap_filter_ne {α β : Type} [DecidableEq α] (f : α → List β) (l : List α)
    (a : α) (hf : f a = []) :
    l.flatMap f = (l.filter (fun x => !(x == a))).flatMap f := by
  induction l with
  | nil => rfl
  | cons x xs ih =>
      by_cases hx : x = a
      · subst hx
        rw [List.flatMap_cons, hf, List.filter_cons]
        simp only [beq_self_eq_true, Bool.not_true, Bool.false_eq_true, if_false]
        simpa using ih
      · have hkeep : (!(x == a)) = true := by simp [hx]
        rw [List.flatMap_cons, List.filter_cons, hkeep, if_pos rfl, List.flatMap_cons, ih]

/-- C10: an edge whose `from` or `to` id resolves to no node in the collection makes
`drawEdge` return without emitting any drawing command, and the full redraw of a
state containing such a dangling edge completes with the same trace as if every copy
of that edge were absent. -/
theorem drawEdge_dangling (o : BasicOptions) (s : GraphState) (edge : BasicEdge)
    (w h : ℝ)
    (hdang : (∀ n ∈ s.nodes, n.id ≠ edge.efrom) ∨ (∀ n ∈ s.nodes, n.id ≠ edge.eto)) :
    drawEdge o s.nodes edge = [] ∧
    draw o w h s = draw o w h ⟨s.nodes, s.edges.filter (fun e => !(e == edge))⟩ := by
  have hde : drawEdge o s.nodes edge = [] := by
    rw [drawEdge]
    rcases hdang with hl | hr
    · have hn : s.nodes.find? (fun n => n.id == edge.efrom) = none :=
        List.find?_eq_none.mpr (by intro x hx; simp [hl x hx])
      rw [hn]
    · have hn : s.nodes.find? (fun n => n.id == edge.eto) = none :=
        List.find?_eq_none.mpr (by intro x hx; simp [hr x hx])
      cases h1 : s.nodes.find? (fun n => n.id == edge.efrom) <;> rw [hn]
  refine ⟨hde, ?_⟩
  rw [draw, draw]
  have hfm := flatMap_filter_ne (drawEdge o s.nodes) s.edges edge hde
  rw [← hfm]

/-- Witness for C10: one node with id 1 and a dangling edge referencing id 2. -/
theorem drawEdge_dangling_witness :
    ((∀ n ∈ ([⟨1, 0, 0⟩] : List BasicNode), n.id ≠ (⟨1, 2⟩ : BasicEdge).efrom) ∨
     (∀ n ∈ ([⟨1, 0, 0⟩] : List BasicNode), n.id ≠ (⟨1, 2⟩ : BasicEdge).eto)) ∧
    (drawEdge ⟨35, 8, "white", "black", fun _ => "x", 24, "black", "black", 10⟩
        [⟨1, 0, 0⟩] ⟨1, 2⟩ = [] ∧
     draw ⟨35, 8, "white", "black", fun _ => "x", 24, "black", "black", 10⟩ 800 600
        ⟨[⟨1, 0, 0⟩], [⟨1, 2⟩]⟩ =
       draw ⟨35, 8, "white", "black", fun _ => "x", 24, "black", "black", 10⟩ 800 600
        ⟨[⟨1, 0, 0⟩], ([⟨1, 2⟩] : List BasicEdge).filter (fun e => !(e == ⟨1, 2⟩))⟩) := by
  have hd : ∀ n ∈ ([⟨1, 0, 0⟩] : List BasicNode), n.id ≠ (⟨1, 2⟩ : BasicEdge).efrom := by
    intro n hn
    rw [List.mem_singleton] at hn
    subst hn
    decide
  exact ⟨Or.inl hd,
    drawEdge_dangling ⟨35, 8, "white", "black", fun _ => "x", 24, "black", "black", 10⟩
      ⟨[⟨1, 0, 0⟩], [⟨1, 2⟩]⟩ ⟨1, 2⟩ 800 600 (Or.inl hd)⟩

end Magic
